import Mathlib

/-!
Verification of the session / presence manager of `node-chat-server`
(`src/server/src/client/client-manager.ts`), shallowly embedded in Lean.

JavaScript `Map` objects (`this.clients`, `this.sockets`, and the
rate-limit table) are embedded as insertion-ordered association lists.
`Map.get` returns the first binding of a key, `Map.set` replaces an
existing binding in place (preserving insertion order) or appends a new
one, `Map.delete` removes the bindings of the key.

Mutable `Client` objects are shared by reference between the `clients`
map (keyed by user id) and the `sockets` map (keyed by socket id).  The
embedding represents a `Client` reference by its user id: the `sockets`
map stores the user id, and the single authoritative `Client` record
lives in the `clients` map.  This identification is justified because
the manager keeps at most one live `Client` per user id (the `Consistent`
invariant proved below).
-/

namespace NodeChat

/-- `Map.get`: first binding of the key, if any. -/
def lookupA {α : Type} (m : List (String × α)) (k : String) : Option α :=
  match m with
  | [] => none
  | (k₁, v) :: t => if k₁ = k then some v else lookupA t k

/-- Replace every binding of `k` by `(k, v)`, keeping positions. -/
def replaceA {α : Type} (m : List (String × α)) (k : String) (v : α) : List (String × α) :=
  match m with
  | [] => []
  | (k₁, v₁) :: t => if k₁ = k then (k, v) :: replaceA t k v else (k₁, v₁) :: replaceA t k v

/-- `Map.set`: replace the binding of an existing key in place, else append. -/
def setA {α : Type} (m : List (String × α)) (k : String) (v : α) : List (String × α) :=
  if (lookupA m k).isSome then replaceA m k v else m ++ [(k, v)]

/-- `Map.delete`: remove the bindings of the key. -/
def delA {α : Type} (m : List (String × α)) (k : String) : List (String × α) :=
  m.filter (fun p => p.1 ≠ k)

theorem lookupA_append {α : Type} (m m' : List (String × α)) (k : String) :
    lookupA (m ++ m') k =
      match lookupA m k with
      | some v => some v
      | none => lookupA m' k := by
  induction m with
  | nil => simp [lookupA]
  | cons p t ih =>
    obtain ⟨k₁, v₁⟩ := p
    by_cases h : k₁ = k <;> simp [lookupA, h, ih]

theorem lookupA_replace_some {α : Type} (m : List (String × α)) (k : String) (v w : α)
    (h : lookupA m k = some w) :
    lookupA (replaceA m k v) k = some v := by
  induction m with
  | nil => simp [lookupA] at h
  | cons p t ih =>
    obtain ⟨k₁, v₁⟩ := p
    by_cases hk : k₁ = k
    · simp [replaceA, hk, lookupA]
    · simp [replaceA, hk, lookupA] at h ⊢
      exact ih h

theorem lookupA_replace_ne {α : Type} (m : List (String × α)) (k k' : String) (v : α)
    (h : k' ≠ k) :
    lookupA (replaceA m k v) k' = lookupA m k' := by
  induction m with
  | nil => simp [replaceA, lookupA]
  | cons p t ih =>
    obtain ⟨k₁, v₁⟩ := p
    by_cases hk : k₁ = k
    · simp [replaceA, hk, lookupA, Ne.symm h, ih]
    · by_cases hk' : k₁ = k' <;> simp [replaceA, hk, hk', lookupA, ih, h]

theorem lookupA_setA_self {α : Type} (m : List (String × α)) (k : String) (v : α) :
    lookupA (setA m k v) k = some v := by
  unfold setA
  cases hl : lookupA m k with
  | some w => simp [hl, lookupA_replace_some m k v w hl]
  | none => simp [hl, lookupA_append, lookupA]

theorem lookupA_setA_ne {α : Type} (m : List (String × α)) (k k' : String) (v : α)
    (h : k' ≠ k) : lookupA (setA m k v) k' = lookupA m k' := by
  unfold setA
  cases hl : lookupA m k with
  | some w => simp [hl, lookupA_replace_ne m k k' v h]
  | none =>
    simp [hl, lookupA_append, lookupA, Ne.symm h]
    cases lookupA m k' <;> simp

theorem lookupA_delA_self {α : Type} (m : List (String × α)) (k : String) :
    lookupA (delA m k) k = none := by
  induction m with
  | nil => simp [delA, lookupA]
  | cons p t ih =>
    obtain ⟨k₁, v₁⟩ := p
    by_cases h : k₁ = k <;> simp_all [delA, lookupA]

theorem lookupA_delA_ne {α : Type} (m : List (String × α)) (k k' : String)
    (h : k' ≠ k) : lookupA (delA m k) k' = lookupA m k' := by
  induction m with
  | nil => simp [delA, lookupA]
  | cons p t ih =>
    obtain ⟨k₁, v₁⟩ := p
    by_cases hk : k₁ = k
    · subst hk
      simp_all [delA, lookupA, Ne.symm h, if_neg (Ne.symm h)]
    · by_cases hk' : k₁ = k' <;> simp_all [delA, lookupA]

theorem lookupA_mem {α : Type} {m : List (String × α)} {k : String} {v : α}
    (h : lookupA m k = some v) : (k, v) ∈ m := by
  induction m with
  | nil => simp [lookupA] at h
  | cons p t ih =>
    obtain ⟨k₁, v₁⟩ := p
    by_cases hk : k₁ = k
    · subst hk
      simp [lookupA] at h
      simp [h]
    · simp [lookupA, hk] at h
      exact List.mem_cons_of_mem _ (ih h)

theorem lookupA_eq_none_of_forall {α : Type} {m : List (String × α)} {k : String}
    (h : ∀ p ∈ m, p.1 ≠ k) : lookupA m k = none := by
  induction m with
  | nil => rfl
  | cons p t ih =>
    obtain ⟨k₁, v₁⟩ := p
    have h₁ : k₁ ≠ k := h (k₁, v₁) (List.mem_cons_self _ _)
    simp [lookupA, h₁]
    exact ih (fun q hq => h q (List.mem_cons_of_mem _ hq))

theorem forall_ne_of_lookupA_eq_none {α : Type} {m : List (String × α)} {k : String}
    (h : lookupA m k = none) : ∀ p ∈ m, p.1 ≠ k := by
  induction m with
  | nil => simp
  | cons p t ih =>
    obtain ⟨k₁, v₁⟩ := p
    by_cases hk : k₁ = k
    · simp [lookupA, hk] at h
    · simp [lookupA, hk] at h
      intro q hq
      rcases List.mem_cons.mp hq with hq | hq
      · simp [hq, hk]
      · exact ih h q hq

theorem delA_eq_of_lookupA_eq_none {α : Type} {m : List (String × α)} {k : String}
    (h : lookupA m k = none) : delA m k = m := by
  have hne := forall_ne_of_lookupA_eq_none h
  exact List.filter_eq_self.mpr (fun p hp => by simpa using hne p hp)

theorem mem_replaceA {α : Type} {m : List (String × α)} {k : String} {v : α} {p : String × α}
    (h : p ∈ replaceA m k v) : p = (k, v) ∨ (p ∈ m ∧ p.1 ≠ k) := by
  induction m with
  | nil => simp [replaceA] at h
  | cons q t ih =>
    obtain ⟨k₁, v₁⟩ := q
    by_cases hk : k₁ = k
    · simp [replaceA, hk] at h
      rcases h with h | h
      · left; simp [h]
      · rcases ih h with h' | h'
        · left; exact h'
        · right; exact ⟨List.mem_cons_of_mem _ h'.1, h'.2⟩
    · simp only [replaceA, if_neg hk, List.mem_cons] at h
      rcases h with h | h
      · right
        exact ⟨by simp [h], by simp [h, hk]⟩
      · rcases ih h with h' | h'
        · left; exact h'
        · right; exact ⟨List.mem_cons_of_mem _ h'.1, h'.2⟩

theorem mem_setA {α : Type} {m : List (String × α)} {k : String} {v : α} {p : String × α}
    (h : p ∈ setA m k v) : p = (k, v) ∨ (p ∈ m ∧ p.1 ≠ k) := by
  unfold setA at h
  split at h
  · exact mem_replaceA h
  · rcases List.mem_append.mp h with hm | hm
    · right
      refine ⟨hm, ?_⟩
      next hnone =>
      have : lookupA m k = none := by
        cases hl : lookupA m k with
        | none => rfl
        | some w => simp [hl] at hnone
      exact forall_ne_of_lookupA_eq_none this p hm
    · left
      simpa using hm

theorem mem_delA {α : Type} {m : List (String × α)} {k : String} {p : String × α}
    (h : p ∈ delA m k) : p ∈ m ∧ p.1 ≠ k := by
  unfold delA at h
  have := List.mem_filter.mp h
  exact ⟨this.1, by simpa using this.2⟩

/-- The persisted user record (`User` of `@/db`): the fields read and written
by `onClientAuthenticated` (id, name, avatar, lastLogin, bot).  Dates are
embedded as `Nat` timestamps. -/
structure UserRec where
  id : String
  name : String
  avatar : String
  lastLogin : Nat
  bot : Bool
deriving DecidableEq, Repr

/-- Modelled from the spec: the `Client` class (`@/client`) is not under
`src/`.  Per §3, a logical client owns a user record and a set of live
connections; `registerSocket` attaches a connection, `unregisterSocket` removes
one and reports whether the set became empty.  `client.id` / `client.name`
read through to the user record. -/
structure Client where
  user : UserRec
  socketIds : List String
deriving DecidableEq, Repr

/-- The decoded token payload: `tokenService.decode` yields an object whose
`id` field is read at line 72 of `client-manager.ts`. -/
structure Token where
  id : String
deriving DecidableEq, Repr

/-- The `login` payload (`ClientAuthRequest`): optional token string, optional
display-name override, bot flag (`!!request.bot`). -/
structure AuthRequest where
  token : Option String
  name : Option String
  bot : Bool

/-- One entry of the rate-limit table: window counter and window start time. -/
structure RLEntry where
  count : Nat
  windowStart : Nat
deriving DecidableEq, Repr

/-- The collaborators a single manager call interacts with, embedded as pure
functions: `tokenService.decode` (a raised exception becomes `none`),
`snowFlake.nextId().toString()`, `imageService.getRandomImage()`,
`new Date()` as a `Nat` timestamp, `User.findOne({ id })`,
`normalizeName` (a raised exception becomes `none`), and
`commandManager.handle` viewed as "does a command consume this text". -/
structure Env where
  decode : String → Option Token
  freshId : String
  randomAvatar : String
  now : Nat
  store : String → Option UserRec
  normalizeName : String → Option String
  commandHandles : String → Bool

/-- The mutable state of `ClientManager`: `clients` (identity id → client),
`sockets` (socket id → client, the client reference represented by its user
id), and the `messageRateLimit` table. -/
structure ChatState where
  clients : List (String × Client)
  sockets : List (String × String)
  rateLimit : List (String × RLEntry)
deriving DecidableEq, Repr

/-- `new ClientManager(...)`: both maps empty, fresh rate limiter. -/
def initialState : ChatState := ⟨[], [], []⟩

/-- The outbound events the manager emits (`socket.emit` / `io.emit`).
`ready` carries the serialized user and member list (the freshly issued token
of the payload is opaque and omitted); `message` is the `usr-msg` broadcast of
`sendMessage` (the embed field, always absent on this path, is omitted). -/
inductive Event where
  | ready (user : UserRec) (members : List UserRec)
  | join (user : UserRec)
  | leave (user : UserRec)
  | typing (id name : String)
  | message (id userId content : String) (mentions : List String)
deriving DecidableEq, Repr

/-- `Array.from(this.clients.values()).map(x => x.serialize())`. -/
def members (st : ChatState) : List UserRec :=
  st.clients.map (fun p => p.2.user)

/-- JS `s.substr(0, n)`. -/
def strTake (s : String) (n : Nat) : String :=
  String.mk (s.toList.take n)

/-- JS `String.prototype.split` with a single-character separator, here
generalized to a character predicate: splits at every separator occurrence and
keeps empty pieces. -/
def splitChars (p : Char → Bool) : List Char → List (List Char)
  | [] => [[]]
  | c :: cs =>
    if p c then [] :: splitChars p cs
    else
      match splitChars p cs with
      | [] => [[c]]
      | t :: ts => (c :: t) :: ts

/-- `getMentions` (lines 172-186): on empty text return `[]`; otherwise split
on the space character, keep the words starting with `@`, drop the marker, and
for each name collect the ids of the registered clients whose display name
equals it exactly (`selectMany` of `@/utils/map` is `flatMap`). -/
def getMentions (st : ChatState) (content : String) : List String :=
  if content = "" then []
  else
    (((splitChars (fun c => c = ' ') content.toList).filter
        (fun w => w.head? = some '@')).map (fun w => w.drop 1)).flatMap
      (fun nick =>
        ((st.clients.map (fun p => p.2)).filter
            (fun c => c.user.name = String.mk nick)).map (fun c => c.user.id))

/-- Modelled from the spec: §4.3 describes the mention resolver as tokenizing
the text **on whitespace**, selecting tokens beginning with `@`, stripping the
marker, and returning the ids of the identities whose display name equals the
name exactly, order-preserving and duplicate-preserving, with `[]` for no
text.  This is the claim-side resolver compared against `getMentions`. -/
def mentionsSpec (st : ChatState) (content : String) : List String :=
  if content = "" then []
  else
    (((splitChars (fun c => c.isWhitespace) content.toList).filter
        (fun w => w.head? = some '@')).map (fun w => w.drop 1)).flatMap
      (fun nick =>
        ((st.clients.map (fun p => p.2)).filter
            (fun c => c.user.name = String.mk nick)).map (fun c => c.user.id))

/-- Modelled from the spec: `escapeHtml` (`@/utils/string-validator`) is not
under `src/`; §4.1 `broadcastMessage` says it "escapes unsafe markup from
`text` (HTML-special-character escaping)".  The four standard HTML metacharacters
are replaced by their entities. -/
def escapeChar (c : Char) : List Char :=
  if c = '&' then ['&', 'a', 'm', 'p', ';']
  else if c = '<' then ['&', 'l', 't', ';']
  else if c = '>' then ['&', 'g', 't', ';']
  else if c = '"' then ['&', 'q', 'u', 'o', 't', ';']
  else [c]

/-- Modelled from the spec: HTML-escape every character of the text. -/
def escapeHtml (s : String) : String :=
  String.mk (s.toList.flatMap escapeChar)

/-- Modelled from the spec: `RateLimit` (`@/utils/rate-limit`) is not under
`src/`; §4.2 says `allow(key)` keeps a per-key window counter: a fresh key
initializes the window, actions within the window are permitted until
`capacity` is exhausted and denied afterwards, and once `windowMillis` has
elapsed the counter resets.  Returns the verdict and the updated table. -/
def rlCheck (capacity windowMillis now : Nat) (table : List (String × RLEntry))
    (key : String) : Bool × List (String × RLEntry) :=
  match lookupA table key with
  | none => (true, setA table key ⟨1, now⟩)
  | some e =>
    if windowMillis ≤ now - e.windowStart then (true, setA table key ⟨1, now⟩)
    else if e.count < capacity then (true, setA table key ⟨e.count + 1, e.windowStart⟩)
    else (false, table)

/-- `onClientDisconnect` (lines 124-133): fetch the client through the reverse
map, always delete the reverse entry, and when a client was found let it
unregister the socket; if its connection set became empty, remove the identity
from `clients` and broadcast `sys-leave`.  A reverse entry whose identity is
absent from `clients` cannot arise (see `Consistent` below); that branch only
removes the reverse entry. -/
def onClientDisconnect (st : ChatState) (socketId : String) : ChatState × List Event :=
  match lookupA st.sockets socketId with
  | none => ({ st with sockets := delA st.sockets socketId }, [])
  | some uid =>
    match lookupA st.clients uid with
    | none => ({ st with sockets := delA st.sockets socketId }, [])
    | some client =>
      if (client.socketIds.filter (fun s => s ≠ socketId)).isEmpty then
        ({ st with sockets := delA st.sockets socketId, clients := delA st.clients uid },
          [Event.leave client.user])
      else
        ({ st with
            sockets := delA st.sockets socketId
            clients := setA st.clients uid
              { client with socketIds := client.socketIds.filter (fun s => s ≠ socketId) } },
          [])

/-- Lines 78-85: `User.findOne({ id })`, or a fresh record with the `anon-`
placeholder name derived from the socket id and a random avatar. -/
def loadedUser (env : Env) (id socketId : String) : UserRec :=
  match env.store id with
  | some u => u
  | none =>
    { id := id, name := "anon-" ++ strTake socketId 6, avatar := env.randomAvatar,
      lastLogin := 0, bot := false }

/-- Lines 87-93: the display-name override, applied only when supplied and
only when `normalizeName` does not raise (the exception is swallowed). -/
def overriddenUser (env : Env) (req : AuthRequest) (u : UserRec) : UserRec :=
  match req.name with
  | some n =>
    match env.normalizeName n with
    | some nm => { u with name := nm }
    | none => u
  | none => u

theorem overriddenUser_id (env : Env) (req : AuthRequest) (u : UserRec) :
    (overriddenUser env req u).id = u.id := by
  unfold overriddenUser
  split
  all_goals first
  | rfl
  | (split <;> rfl)

theorem overriddenUser_avatar (env : Env) (req : AuthRequest) (u : UserRec) :
    (overriddenUser env req u).avatar = u.avatar := by
  unfold overriddenUser
  split
  all_goals first
  | rfl
  | (split <;> rfl)

theorem loadedUser_of_some {env : Env} {id : String} (socketId : String) {u : UserRec}
    (h : env.store id = some u) : loadedUser env id socketId = u := by
  unfold loadedUser
  rw [h]

theorem loadedUser_id (env : Env) (id socketId : String)
    (hok : ∀ i u, env.store i = some u → u.id = i) :
    (loadedUser env id socketId).id = id := by
  unfold loadedUser
  cases h : env.store id with
  | none => rfl
  | some u => exact hok _ _ h

theorem loadedUser_id_of_none {env : Env} {id : String} (socketId : String)
    (h : env.store id = none) :
    (loadedUser env id socketId).id = id := by
  unfold loadedUser
  rw [h]

/-- Lines 62-72: decode the token when present (a raised decode exception is
swallowed, leaving `null`), and resolve the identity id: the token's id, else
a fresh snowflake. -/
def resolveId (env : Env) (req : AuthRequest) : String :=
  match req.token.bind env.decode with
  | some t => t.id
  | none => env.freshId

/-- Lines 62-121 of `onClientAuthenticated`, after the re-login guard: decode
the token (a decode failure is swallowed), resolve the identity id (token id
or a fresh snowflake), then either attach the socket to the already registered
client, or build the user record (loaded from the store or freshly minted with
an `anon-` name and random avatar), apply the name override (normalization
failure swallowed), stamp `lastLogin` and `bot`, save, and register the new
client; emit `ready` always and `sys-join` exactly when the identity is new.
In the source the new client is inserted before `registerSocket` runs (lines
104, 107); the net state, with the socket attached, is used here. -/
def loginCore (env : Env) (st : ChatState) (socketId : String) (req : AuthRequest) :
    ChatState × List Event :=
  let id : String := resolveId env req
  match lookupA st.clients id with
  | some client =>
    let client₁ : Client := { client with socketIds := client.socketIds ++ [socketId] }
    let st₁ : ChatState :=
      { st with clients := setA st.clients id client₁, sockets := setA st.sockets socketId id }
    (st₁, [Event.ready client₁.user (members st₁)])
  | none =>
    let user₂ : UserRec :=
      { overriddenUser env req (loadedUser env id socketId) with
        lastLogin := env.now, bot := req.bot }
    let client : Client := { user := user₂, socketIds := [socketId] }
    let st₁ : ChatState :=
      { st with clients := setA st.clients id client, sockets := setA st.sockets socketId id }
    (st₁, [Event.ready user₂ (members st₁), Event.join user₂])

/-- `onClientAuthenticated` (lines 57-122): if the socket is already in the
reverse map, first run the full disconnect path, then proceed with the login
body; the call's emitted events are the concatenation. -/
def onClientAuthenticated (env : Env) (st : ChatState) (socketId : String)
    (req : AuthRequest) : ChatState × List Event :=
  if (lookupA st.sockets socketId).isSome then
    let r₁ := onClientDisconnect st socketId
    let r₂ := loginCore env r₁.1 socketId req
    (r₂.1, r₁.2 ++ r₂.2)
  else
    loginCore env st socketId req

/-- `onClientStartTyping` (lines 135-142): reads `client.id` and `client.name`
without a guard; when the socket is unknown the lookup yields `undefined` and
the field access raises a `TypeError`, embedded as `Except.error`. -/
def onClientStartTyping (st : ChatState) (socketId : String) :
    Except String (List Event) :=
  match (lookupA st.sockets socketId).bind (lookupA st.clients) with
  | some client => Except.ok [Event.typing client.user.id client.user.name]
  | none => Except.error "TypeError: cannot read properties of undefined"

/-- `sendMessage` (lines 162-170) restricted to the embed-free `usr-msg` path:
a fresh snowflake message id, the HTML-escaped content, and the mentions
resolved against the raw content. -/
def sendMessage (env : Env) (st : ChatState) (userId : String) (content : String) : Event :=
  Event.message env.freshId userId (escapeHtml content) (getMentions st content)

/-- `onClientMessageReceived` (lines 144-160): offer the raw text to the
command manager and stop if consumed; otherwise consult the rate limiter
(capacity 5, window 5000ms, keyed by socket id) and silently drop on denial;
otherwise truncate to 256 units and delegate to `sendMessage` — which reads
`client.id` without a guard, a `TypeError` (embedded as `Except.error`) when
the socket is unknown. -/
def onClientMessageReceived (env : Env) (st : ChatState) (socketId : String)
    (message : String) : Except String (ChatState × List Event) :=
  let client? : Option Client := (lookupA st.sockets socketId).bind (lookupA st.clients)
  if env.commandHandles message then
    Except.ok (st, [])
  else
    let rl := rlCheck 5 5000 env.now st.rateLimit socketId
    let st₁ : ChatState := { st with rateLimit := rl.2 }
    if rl.1 = false then
      Except.ok (st₁, [])
    else
      let message₁ := if 256 < message.length then strTake message 256 else message
      match client? with
      | some client => Except.ok (st₁, [sendMessage env st₁ client.user.id message₁])
      | none => Except.error "TypeError: cannot read properties of undefined"

/-- A registry-mutating boundary event: a `login` (with the collaborators it
interacts with) or a `disconnect`. -/
inductive Op where
  | login (env : Env) (socketId : String) (req : AuthRequest)
  | disconnect (socketId : String)

/-- One boundary event applied to the manager state. -/
def step (st : ChatState) : Op → ChatState × List Event
  | Op.login env socketId req => onClientAuthenticated env st socketId req
  | Op.disconnect socketId => onClientDisconnect st socketId

/-- A sequence of boundary events applied to the manager state. -/
def run (st : ChatState) : List Op → ChatState
  | [] => st
  | op :: t => run (step st op).1 t

/-- The store collaborator answers a find-by-id query with a record carrying
that id (`User.findOne({ id })`). -/
def Op.storeOk : Op → Prop
  | Op.login env _ _ => ∀ id u, env.store id = some u → u.id = id
  | Op.disconnect _ => True

/-- The inductive invariant tying the two maps together: every registered
client is keyed by its own user id, owns a non-empty connection set all of
whose sockets point back to it, and every reverse entry points to a registered
client owning that socket. -/
def Inv (st : ChatState) : Prop :=
  (∀ p ∈ st.clients, p.2.user.id = p.1 ∧ p.2.socketIds ≠ [] ∧
      ∀ s ∈ p.2.socketIds, lookupA st.sockets s = some p.1) ∧
  (∀ q ∈ st.sockets, ∃ c, lookupA st.clients q.2 = some c ∧ q.1 ∈ c.socketIds)

/-- The spec's registry-consistency invariant (§3): an identity is registered
iff some live connection points to it, every reverse entry resolves in the
primary registry, and every registered identity has at least one reverse
entry. -/
def Consistent (st : ChatState) : Prop :=
  (∀ uid, (lookupA st.clients uid).isSome ↔ ∃ q ∈ st.sockets, q.2 = uid) ∧
  (∀ q ∈ st.sockets, (lookupA st.clients q.2).isSome) ∧
  (∀ p ∈ st.clients, ∃ q ∈ st.sockets, q.2 = p.1)

/-- Number of `sys-join` broadcasts in an event trace. -/
def countJoin (evs : List Event) : Nat :=
  evs.countP (fun e => match e with | Event.join _ => true | _ => false)

/-- Number of `sys-leave` broadcasts in an event trace. -/
def countLeave (evs : List Event) : Nat :=
  evs.countP (fun e => match e with | Event.leave _ => true | _ => false)

/-- The lengths of the contents of the `usr-msg` broadcasts in a trace. -/
def broadcastContentLengths (evs : List Event) : List Nat :=
  evs.filterMap (fun e =>
    match e with
    | Event.message _ _ content _ => some content.length
    | _ => none)

/-- The events of a handler outcome, `[]` when it raised. -/
def messageEvents : Except String (ChatState × List Event) → List Event
  | Except.ok r => r.2
  | Except.error _ => []

/-- A two-member registry (ids `u1`/`u2`, display names `Alice`/`Bob`) used to
instantiate theorems on concrete inputs. -/
def demoAlice : Client := ⟨⟨"u1", "Alice", "avatarA", 0, false⟩, ["s1"]⟩

def demoBob : Client := ⟨⟨"u2", "Bob", "avatarB", 0, false⟩, ["s2"]⟩

def demoState : ChatState :=
  ⟨[("u1", demoAlice), ("u2", demoBob)], [("s1", "u1"), ("s2", "u2")], []⟩

/-- Collaborators for concrete runs: no command consumes any text, the store
is empty, token decoding fails. -/
def demoEnv : Env :=
  ⟨fun _ => none, "m1", "avatarC", 0, fun _ => none, fun n => some n, fun _ => false⟩

theorem splitChars_congr (p q : Char → Bool) (cs : List Char)
    (h : ∀ c ∈ cs, p c = q c) : splitChars p cs = splitChars q cs := by
  induction cs with
  | nil => rfl
  | cons c t ih =>
    have hc := h c (List.mem_cons_self _ _)
    have ht := ih (fun x hx => h x (List.mem_cons_of_mem _ hx))
    simp only [splitChars, hc, ht]

theorem flatMap_escapeChar_length (l : List Char) (h : ∀ c ∈ l, escapeChar c = [c]) :
    (l.flatMap escapeChar).length = l.length := by
  induction l with
  | nil => rfl
  | cons c t ih =>
    have hc := h c (List.mem_cons_self _ _)
    have ht := ih (fun x hx => h x (List.mem_cons_of_mem _ hx))
    simp [List.flatMap_cons, hc, ht]

/-- C5: the claim says `onClientStartTyping` and `onClientMessageReceived` are
silent no-ops for a connection absent from the reverse map.  The code has no
guard: both dereference the `undefined` client and raise a `TypeError`
(`client.id` at lines 139 and 159).  Evaluated here at a concrete unknown
socket: the typing handler raises, and the message handler — on a text no
command consumes, with the rate limiter allowing — raises as well instead of
broadcasting nothing. -/
theorem c5_unknown_connection_raises :
    onClientStartTyping initialState "s9" =
      Except.error "TypeError: cannot read properties of undefined" ∧
    onClientMessageReceived demoEnv initialState "s9" "hello" =
      Except.error "TypeError: cannot read properties of undefined" := by
  constructor <;> rfl

/-- C6: `onClientMessageReceived` first offers the text to the command
manager: if consumed it stops — the state (including the rate-limit table) is
unchanged and nothing is broadcast; only otherwise is the rate limiter
consulted, and on denial the message is silently dropped (no broadcast, no
error); in every non-command outcome the rate-limit table has been advanced by
exactly the one `check` call. -/
theorem c6_command_short_circuit (env : Env) (st : ChatState) (socketId message : String) :
    (env.commandHandles message = true →
      onClientMessageReceived env st socketId message = Except.ok (st, [])) ∧
    (env.commandHandles message = false →
      (rlCheck 5 5000 env.now st.rateLimit socketId).1 = false →
      onClientMessageReceived env st socketId message =
        Except.ok ({ st with rateLimit := (rlCheck 5 5000 env.now st.rateLimit socketId).2 }, [])) ∧
    (env.commandHandles message = false →
      ∀ r, onClientMessageReceived env st socketId message = Except.ok r →
        r.1.rateLimit = (rlCheck 5 5000 env.now st.rateLimit socketId).2) := by
  refine ⟨fun hc => ?_, fun hc hd => ?_, fun hc r hr => ?_⟩
  · simp [onClientMessageReceived, hc]
  · simp [onClientMessageReceived, hc, hd]
  · simp only [onClientMessageReceived, hc, if_false, Bool.false_eq_true] at hr
    split at hr
    · exact (Except.ok.inj hr) ▸ rfl
    · split at hr
      · exact (Except.ok.inj hr) ▸ rfl
      · exact absurd hr (by simp)

/-- C6 witness: with a command that consumes `/say hi`, the handler stops with
the state untouched; with no command and the window exhausted (five actions
already counted at the window start), the message is silently dropped. -/
theorem c6_command_short_circuit_witness :
    onClientMessageReceived ⟨fun _ => none, "m1", "a", 0, fun _ => none, fun n => some n,
        fun m => m == "/say hi"⟩ demoState "s1" "/say hi" = Except.ok (demoState, []) ∧
    onClientMessageReceived demoEnv ⟨demoState.clients, demoState.sockets, [("s1", ⟨5, 0⟩)]⟩
        "s1" "hello" =
      Except.ok (⟨demoState.clients, demoState.sockets, [("s1", ⟨5, 0⟩)]⟩, []) := by
  constructor
  · exact (c6_command_short_circuit _ demoState "s1" "/say hi").1 rfl
  · exact (c6_command_short_circuit demoEnv _ "s1" "hello").2.1 rfl rfl

set_option maxRecDepth 40000 in
/-- C7 counterexample: a 300-character message consisting of `<` characters is
accepted (no command, rate allowed) and broadcast, but the broadcast content —
the HTML-escape of the 256-unit truncation — has length 1024, not 256. -/
theorem c7_counterexample_escaped_length :
    broadcastContentLengths (messageEvents
        (onClientMessageReceived demoEnv demoState "s1"
          (String.mk (List.replicate 300 '<')))) = [1024] ∧
    (1024 : Nat) ≠ 256 := by
  constructor
  · rfl
  · decide

/-- C7 amended: an accepted over-long message is truncated to 256 units
*before* HTML escaping and broadcast without error; the broadcast content is
the HTML-escape of the truncation, whose length is exactly 256 whenever the
truncated text contains no HTML metacharacter (in particular for a
300-character message of ordinary characters). -/
theorem c7_truncate_before_escape (env : Env) (st : ChatState)
    (socketId message uid : String) (c : Client)
    (hsock : lookupA st.sockets socketId = some uid)
    (hclient : lookupA st.clients uid = some c)
    (hcmd : env.commandHandles message = false)
    (hallow : (rlCheck 5 5000 env.now st.rateLimit socketId).1 = true)
    (hlen : 256 < message.length) :
    onClientMessageReceived env st socketId message =
      Except.ok ({ st with rateLimit := (rlCheck 5 5000 env.now st.rateLimit socketId).2 },
        [Event.message env.freshId c.user.id (escapeHtml (strTake message 256))
          (getMentions st (strTake message 256))]) ∧
    ((∀ ch ∈ (strTake message 256).toList, escapeChar ch = [ch]) →
      (escapeHtml (strTake message 256)).length = 256) := by
  constructor
  · simp [onClientMessageReceived, sendMessage, hsock, hclient, hcmd, hallow, hlen]
    rfl
  · intro h
    have h₁ : (escapeHtml (strTake message 256)).length
        = (strTake message 256).toList.length := by
      have := flatMap_escapeChar_length (strTake message 256).toList h
      simpa [escapeHtml, strTake] using this
    have h₂ : (strTake message 256).toList.length = 256 := by
      show (List.take 256 message.data).length = 256
      rw [List.length_take]
      exact Nat.min_eq_left (Nat.le_of_lt hlen)
    rw [h₁, h₂]

set_option maxRecDepth 40000 in
/-- C7 witness: a 300-character message of `a` characters is broadcast with
content length exactly 256. -/
theorem c7_truncate_before_escape_witness :
    (escapeHtml (strTake (String.mk (List.replicate 300 'a')) 256)).length = 256 :=
  (c7_truncate_before_escape demoEnv demoState "s1" (String.mk (List.replicate 300 'a'))
    "u1" demoAlice rfl rfl rfl rfl (by decide)).2 (by decide)

/-- C8 counterexample: the claim tokenizes on whitespace, but `getMentions`
splits on the space character only — `"@Alice\n@Bob"` resolves to `[]` in the
code while the whitespace-tokenizing resolver of the spec yields the two
ids. -/
theorem c8_counterexample_newline_mention :
    getMentions demoState "@Alice\n@Bob" = [] ∧
    mentionsSpec demoState "@Alice\n@Bob" = ["u1", "u2"] := by
  constructor <;> rfl

/-- C8 amended: `getMentions` tokenizes on the space character (U+0020), not
on general whitespace; it agrees with the spec's whitespace-tokenizing
resolver on every text whose only whitespace is the space character, resolves
the spec's example to `["u1", "u2", "u1"]` (order preserved, duplicates
preserved, exact case-sensitive name match), and yields `[]` on empty text. -/
theorem c8_space_tokenization :
    (∀ st content, (∀ ch ∈ content.toList, ch.isWhitespace → ch = ' ') →
      getMentions st content = mentionsSpec st content) ∧
    getMentions demoState "hello @Alice and @Bob and @Alice" = ["u1", "u2", "u1"] ∧
    (∀ st, getMentions st "" = []) := by
  refine ⟨?_, rfl, fun st => rfl⟩
  intro st content h
  by_cases hc : content = ""
  · simp [getMentions, mentionsSpec, hc]
  · have hpq : ∀ ch ∈ content.toList, (decide (ch = ' ')) = ch.isWhitespace := by
      intro ch hch
      by_cases hsp : ch = ' '
      · subst hsp
        decide
      · have hw : ch.isWhitespace = false := by
          cases hw : ch.isWhitespace
          · rfl
          · exact absurd (h ch hch hw) hsp
        simp [hsp, hw]
    have hsplit : splitChars (fun c => c = ' ') content.toList
        = splitChars (fun c => c.isWhitespace) content.toList :=
      splitChars_congr _ _ _ hpq
    simp only [getMentions, mentionsSpec, hc, if_neg hc, hsplit]

/-- C8 witness: on the spec's example text, whose only whitespace is the space
character, `getMentions` coincides with the whitespace-tokenizing resolver. -/
theorem c8_space_tokenization_witness :
    getMentions demoState "hello @Alice and @Bob and @Alice" =
      mentionsSpec demoState "hello @Alice and @Bob and @Alice" :=
  c8_space_tokenization.1 demoState _ (by decide)

theorem login_eq_core_of_unknown (env : Env) (st : ChatState) (s : String)
    (req : AuthRequest) (h : lookupA st.sockets s = none) :
    onClientAuthenticated env st s req = loginCore env st s req := by
  simp [onClientAuthenticated, h]

theorem countJoin_loginCore_found (env : Env) (st : ChatState) (s : String)
    (req : AuthRequest) (uid : String) (c : Client)
    (htk : req.token.bind env.decode = some ⟨uid⟩)
    (hfound : lookupA st.clients uid = some c) :
    countJoin (loginCore env st s req).2 = 0 := by
  simp [loginCore, resolveId, htk, hfound, countJoin]

theorem disc_sockets_self (st : ChatState) (s : String) :
    lookupA (onClientDisconnect st s).1.sockets s = none := by
  unfold onClientDisconnect
  cases hl : lookupA st.sockets s with
  | none => simp [lookupA_delA_self]
  | some uid =>
    cases hc : lookupA st.clients uid with
    | none => simp [hc, lookupA_delA_self]
    | some c =>
      simp only [hc]
      split <;> simp [lookupA_delA_self]

/-- C10: a second `login` from a socket already present in the reverse map
first runs the full disconnect path for that socket and then processes the new
login on the resulting state; the emitted events are those of the disconnect
followed by those of the fresh login. -/
theorem c10_relogin_runs_disconnect_first (env : Env) (st : ChatState) (s : String)
    (req : AuthRequest) (h : (lookupA st.sockets s).isSome = true) :
    onClientAuthenticated env st s req =
      ((onClientAuthenticated env (onClientDisconnect st s).1 s req).1,
        (onClientDisconnect st s).2
          ++ (onClientAuthenticated env (onClientDisconnect st s).1 s req).2) := by
  have hnone := disc_sockets_self st s
  simp [onClientAuthenticated, h, hnone]

/-- C10 witness: a re-login of the already registered socket `s1`. -/
theorem c10_relogin_runs_disconnect_first_witness :
    onClientAuthenticated demoEnv demoState "s1" ⟨none, none, false⟩ =
      ((onClientAuthenticated demoEnv (onClientDisconnect demoState "s1").1 "s1"
          ⟨none, none, false⟩).1,
        (onClientDisconnect demoState "s1").2
          ++ (onClientAuthenticated demoEnv (onClientDisconnect demoState "s1").1 "s1"
              ⟨none, none, false⟩).2) :=
  c10_relogin_runs_disconnect_first demoEnv demoState "s1" ⟨none, none, false⟩ rfl

/-- C4: a login whose token fails verification behaves exactly as a login with
no token at all — no error propagates; when the fresh snowflake id is indeed
fresh (unused in the registry and in the store), the connection is registered
as a brand-new identity under that id: one join broadcast, the reverse map
binds the socket to the fresh id, and the new client owns exactly this socket
(with the `anon-` placeholder name when no override was supplied). -/
theorem c4_invalid_token_is_anonymous (env : Env) (st : ChatState) (socketId t : String)
    (req : AuthRequest) (htok : req.token = some t) (hbad : env.decode t = none) :
    onClientAuthenticated env st socketId req
      = onClientAuthenticated env st socketId { req with token := none } ∧
    (lookupA st.sockets socketId = none → lookupA st.clients env.freshId = none →
      env.store env.freshId = none →
      countJoin (onClientAuthenticated env st socketId req).2 = 1 ∧
      lookupA (onClientAuthenticated env st socketId req).1.sockets socketId
        = some env.freshId ∧
      ∃ c, lookupA (onClientAuthenticated env st socketId req).1.clients env.freshId
          = some c ∧
        c.user.id = env.freshId ∧ c.socketIds = [socketId] ∧
        (req.name = none → c.user.name = "anon-" ++ strTake socketId 6)) := by
  have htoken : req.token.bind env.decode = none := by
    rw [htok]
    exact hbad
  have hcore : ∀ st' : ChatState, loginCore env st' socketId req
      = loginCore env st' socketId { req with token := none } := by
    intro st'
    simp only [loginCore, resolveId, htoken]
    rfl
  constructor
  · simp only [onClientAuthenticated]
    split <;> rw [hcore]
  · intro hs hc hst
    rw [login_eq_core_of_unknown env st socketId req hs]
    simp only [loginCore, resolveId, htoken, hc]
    refine ⟨by simp [countJoin], lookupA_setA_self _ _ _,
      _, lookupA_setA_self _ _ _, ?_, rfl, ?_⟩
    · simp [overriddenUser_id, loadedUser_id_of_none socketId hst]
    · intro hn
      simp [overriddenUser, hn, loadedUser, hst]

/-- C4 witness: an undecodable token on the empty registry creates the
anonymous identity `m1` owning socket `s7`. -/
theorem c4_invalid_token_is_anonymous_witness :
    onClientAuthenticated demoEnv initialState "s7" ⟨some "garbage", none, false⟩
      = onClientAuthenticated demoEnv initialState "s7" ⟨none, none, false⟩ ∧
    (countJoin (onClientAuthenticated demoEnv initialState "s7"
        ⟨some "garbage", none, false⟩).2 = 1 ∧
      lookupA (onClientAuthenticated demoEnv initialState "s7"
        ⟨some "garbage", none, false⟩).1.sockets "s7" = some "m1" ∧
      ∃ c, lookupA (onClientAuthenticated demoEnv initialState "s7"
          ⟨some "garbage", none, false⟩).1.clients "m1" = some c ∧
        c.user.id = "m1" ∧ c.socketIds = ["s7"] ∧
        ((⟨some "garbage", none, false⟩ : AuthRequest).name = none →
          c.user.name = "anon-" ++ strTake "s7" 6)) := by
  have h := c4_invalid_token_is_anonymous demoEnv initialState "s7" "garbage"
    ⟨some "garbage", none, false⟩ rfl rfl
  exact ⟨h.1, h.2 rfl rfl rfl⟩

/-- C2: two connections authenticating in sequence with tokens resolving to
the same identity id, the id not yet registered and both sockets unknown,
produce exactly one `sys-join`: one on the first registration (the identity is
newly created), none on the second (the identity is found in the registry). -/
theorem c2_join_emitted_once (env₁ env₂ : Env) (st : ChatState)
    (s₁ s₂ t₁ t₂ uid : String) (req₁ req₂ : AuthRequest)
    (htok₁ : req₁.token = some t₁) (hdec₁ : env₁.decode t₁ = some ⟨uid⟩)
    (htok₂ : req₂.token = some t₂) (hdec₂ : env₂.decode t₂ = some ⟨uid⟩)
    (hs₁ : lookupA st.sockets s₁ = none)
    (hnew : lookupA st.clients uid = none)
    (hs₂ : lookupA (onClientAuthenticated env₁ st s₁ req₁).1.sockets s₂ = none) :
    countJoin (onClientAuthenticated env₁ st s₁ req₁).2 = 1 ∧
    countJoin (onClientAuthenticated env₂
      (onClientAuthenticated env₁ st s₁ req₁).1 s₂ req₂).2 = 0 := by
  have htk₁ : req₁.token.bind env₁.decode = some ⟨uid⟩ := by
    rw [htok₁]
    exact hdec₁
  have htk₂ : req₂.token.bind env₂.decode = some ⟨uid⟩ := by
    rw [htok₂]
    exact hdec₂
  have h₁ : onClientAuthenticated env₁ st s₁ req₁ = loginCore env₁ st s₁ req₁ :=
    login_eq_core_of_unknown env₁ st s₁ req₁ hs₁
  constructor
  · rw [h₁]
    simp [loginCore, resolveId, htk₁, hnew, countJoin]
  · have h₂ : onClientAuthenticated env₂ (onClientAuthenticated env₁ st s₁ req₁).1 s₂ req₂
        = loginCore env₂ (onClientAuthenticated env₁ st s₁ req₁).1 s₂ req₂ :=
      login_eq_core_of_unknown env₂ _ s₂ req₂ hs₂
    rw [h₂, h₁]
    have hfound : ∃ c, lookupA (loginCore env₁ st s₁ req₁).1.clients uid = some c := by
      simp only [loginCore, resolveId, htk₁, hnew]
      exact ⟨_, lookupA_setA_self _ _ _⟩
    obtain ⟨c, hcfound⟩ := hfound
    exact countJoin_loginCore_found env₂ _ s₂ req₂ uid c htk₂ hcfound

/-- C2 witness: sockets `sX` then `sY` log in with the same decodable token on
the empty registry; one join on the first, zero on the second. -/
theorem c2_join_emitted_once_witness :
    countJoin (onClientAuthenticated
      ⟨fun x => if x = "tok" then some ⟨"u7"⟩ else none, "f1", "av", 0,
        fun _ => none, fun n => some n, fun _ => false⟩
      initialState "sX" ⟨some "tok", none, false⟩).2 = 1 ∧
    countJoin (onClientAuthenticated
      ⟨fun x => if x = "tok" then some ⟨"u7"⟩ else none, "f2", "av", 1,
        fun _ => none, fun n => some n, fun _ => false⟩
      (onClientAuthenticated
        ⟨fun x => if x = "tok" then some ⟨"u7"⟩ else none, "f1", "av", 0,
          fun _ => none, fun n => some n, fun _ => false⟩
        initialState "sX" ⟨some "tok", none, false⟩).1
      "sY" ⟨some "tok", none, false⟩).2 = 0 :=
  c2_join_emitted_once _ _ initialState "sX" "sY" "tok" "tok" "u7"
    ⟨some "tok", none, false⟩ ⟨some "tok", none, false⟩
    rfl rfl rfl rfl rfl rfl (by decide)

/-- A registry holding the one identity `u1` (name `Old`, last login 5) with
the single live socket `sA`, used to exercise the reconnection path. -/
def c9client : Client := ⟨⟨"u1", "Old", "avatarO", 5, false⟩, ["sA"]⟩

def c9st : ChatState := ⟨[("u1", c9client)], [("sA", "u1")], []⟩

/-- Collaborators for the reconnection runs: `tok` decodes to `u1`, the clock
reads 99, name normalization succeeds unchanged. -/
def c9env : Env :=
  ⟨fun x => if x = "tok" then some ⟨"u1"⟩ else none, "f1", "avatarN", 99,
    fun _ => none, fun n => some n, fun _ => false⟩

def c9req : AuthRequest := ⟨some "tok", some "Bob", false⟩

/-- C9 counterexample: a reconnection (socket `sB`, token resolving to `u1`,
name override `Bob`, clock 99) while `u1` is still registered with another
live connection leaves the record untouched: the name stays `Old` (the
override is not applied) and the login timestamp stays 5 (not updated),
because lines 87-98 run only in the `!client` branch. -/
theorem c9_counterexample_present_identity_not_mutated :
    (lookupA (onClientAuthenticated c9env c9st "sB" c9req).1.clients "u1").map
        (fun c => (c.user.name, c.user.lastLogin)) = some ("Old", 5) ∧
    ("Old" : String) ≠ "Bob" ∧ (5 : Nat) ≠ 99 := by
  refine ⟨rfl, by decide, by decide⟩

/-- C9 amended: a reconnection mutates the identity record only when the
identity id is *not* currently registered, i.e. when the record is reloaded
from the store: then the login timestamp is set to the current time, the bot
flag refreshed, and the display-name override applied when normalization
succeeds.  When the identity is still present in the registry (other live
connections), the new connection is attached and the record is returned
unchanged. -/
theorem c9_mutation_only_when_absent :
    (∀ (env : Env) (st : ChatState) (s t uid : String) (req : AuthRequest) (c : Client),
      req.token = some t → env.decode t = some ⟨uid⟩ →
      lookupA st.sockets s = none → lookupA st.clients uid = some c →
      lookupA (onClientAuthenticated env st s req).1.clients uid
        = some { c with socketIds := c.socketIds ++ [s] }) ∧
    (∀ (env : Env) (st : ChatState) (s t uid : String) (req : AuthRequest) (u : UserRec),
      req.token = some t → env.decode t = some ⟨uid⟩ →
      lookupA st.sockets s = none → lookupA st.clients uid = none →
      env.store uid = some u →
      ∃ c', lookupA (onClientAuthenticated env st s req).1.clients uid = some c' ∧
        c'.socketIds = [s] ∧ c'.user.lastLogin = env.now ∧ c'.user.bot = req.bot ∧
        c'.user.id = u.id ∧ c'.user.avatar = u.avatar ∧
        (req.name = none → c'.user.name = u.name) ∧
        (∀ n nm, req.name = some n → env.normalizeName n = some nm →
          c'.user.name = nm) ∧
        (∀ n, req.name = some n → env.normalizeName n = none →
          c'.user.name = u.name)) := by
  constructor
  · intro env st s t uid req c htok hdec hs hc
    have htk : req.token.bind env.decode = some ⟨uid⟩ := by
      rw [htok]
      exact hdec
    rw [login_eq_core_of_unknown env st s req hs]
    simp only [loginCore, resolveId, htk, hc]
    exact lookupA_setA_self _ _ _
  · intro env st s t uid req u htok hdec hs hc hstore
    have htk : req.token.bind env.decode = some ⟨uid⟩ := by
      rw [htok]
      exact hdec
    rw [login_eq_core_of_unknown env st s req hs]
    simp only [loginCore, resolveId, htk, hc]
    refine ⟨_, lookupA_setA_self _ _ _, rfl, rfl, rfl, ?_, ?_, ?_, ?_, ?_⟩
    · rw [loadedUser_of_some s hstore]
      exact overriddenUser_id env req u
    · rw [loadedUser_of_some s hstore]
      exact overriddenUser_avatar env req u
    · intro hn
      rw [loadedUser_of_some s hstore]
      simp [overriddenUser, hn]
    · intro n nm hn hnn
      rw [loadedUser_of_some s hstore]
      simp [overriddenUser, hn, hnn]
    · intro n hn hnn
      rw [loadedUser_of_some s hstore]
      simp [overriddenUser, hn, hnn]

/-- C9 witness: the still-present reconnection of `u1` via socket `sB` merely
attaches the socket; a reconnection of the stored identity `u9` with override
`Neo` (socket `sC`, clock 99) yields a record stamped at 99 with name `Neo`. -/
theorem c9_mutation_only_when_absent_witness :
    lookupA (onClientAuthenticated c9env c9st "sB" c9req).1.clients "u1"
      = some { c9client with socketIds := c9client.socketIds ++ ["sB"] } ∧
    (∃ c', lookupA (onClientAuthenticated
        ⟨fun x => if x = "tok" then some ⟨"u9"⟩ else none, "f1", "avatarN", 99,
          fun x => if x = "u9" then some ⟨"u9", "Stored", "avatarS", 3, false⟩ else none,
          fun n => some n, fun _ => false⟩
        initialState "sC" ⟨some "tok", some "Neo", true⟩).1.clients "u9" = some c' ∧
      c'.socketIds = ["sC"] ∧ c'.user.lastLogin = 99 ∧ c'.user.bot = true ∧
      c'.user.id = "u9" ∧ c'.user.avatar = "avatarS" ∧
      ((⟨some "tok", some "Neo", true⟩ : AuthRequest).name = none →
        c'.user.name = "Stored") ∧
      (∀ n nm, (⟨some "tok", some "Neo", true⟩ : AuthRequest).name = some n →
        (some n : Option String) = some nm → c'.user.name = nm) ∧
      (∀ n, (⟨some "tok", some "Neo", true⟩ : AuthRequest).name = some n →
        (some n : Option String) = none → c'.user.name = "Stored")) :=
  ⟨c9_mutation_only_when_absent.1 c9env c9st "sB" "tok" "u1" c9req c9client
      rfl rfl rfl rfl,
    c9_mutation_only_when_absent.2 _ initialState "sC" "tok" "u9"
      ⟨some "tok", some "Neo", true⟩ ⟨"u9", "Stored", "avatarS", 3, false⟩
      rfl rfl rfl rfl rfl⟩

theorem inv_initial : Inv initialState := by
  constructor <;> intro p hp <;> simp [initialState] at hp

/-- Registering a socket preserves the registry invariant: the inserted client
is keyed by its id and owns either the previous connection set plus the new
socket or exactly the new socket. -/
theorem inv_register (st : ChatState) (id s : String) (c' : Client)
    (hInv : Inv st) (hs : lookupA st.sockets s = none)
    (hid : c'.user.id = id)
    (hsock : (∃ c, lookupA st.clients id = some c ∧ c'.socketIds = c.socketIds ++ [s]) ∨
      (lookupA st.clients id = none ∧ c'.socketIds = [s])) :
    Inv ⟨setA st.clients id c', setA st.sockets s id, st.rateLimit⟩ := by
  obtain ⟨hc₁, hc₂⟩ := hInv
  constructor
  · intro p hp
    rcases mem_setA hp with hpe | ⟨hpm, hpk⟩
    · subst hpe
      refine ⟨hid, ?_, ?_⟩
      · rcases hsock with ⟨c, _, he⟩ | ⟨_, he⟩ <;> simp [he]
      · intro s' hs'
        rcases hsock with ⟨c, hcid, he⟩ | ⟨_, he⟩
        · rw [he] at hs'
          rcases List.mem_append.mp hs' with h' | h'
          · have hcmem := lookupA_mem hcid
            have hold := (hc₁ (id, c) hcmem).2.2 s' h'
            have hne : s' ≠ s := by
              intro hcontra
              rw [hcontra, hs] at hold
              exact Option.noConfusion hold
            rw [lookupA_setA_ne _ _ _ _ hne]
            exact hold
          · have hse : s' = s := by simpa using h'
            rw [hse]
            exact lookupA_setA_self _ _ _
        · rw [he] at hs'
          have hse : s' = s := by simpa using hs'
          rw [hse]
          exact lookupA_setA_self _ _ _
    · obtain ⟨hpid, hpnn, hpsock⟩ := hc₁ p hpm
      refine ⟨hpid, hpnn, ?_⟩
      intro s' hs'
      have hold := hpsock s' hs'
      have hne : s' ≠ s := by
        intro hcontra
        rw [hcontra, hs] at hold
        exact Option.noConfusion hold
      rw [lookupA_setA_ne _ _ _ _ hne]
      exact hold
  · intro q hq
    rcases mem_setA hq with hqe | ⟨hqm, hqk⟩
    · subst hqe
      refine ⟨c', lookupA_setA_self _ _ _, ?_⟩
      rcases hsock with ⟨c, _, he⟩ | ⟨_, he⟩ <;> simp [he]
    · obtain ⟨c₀, hc₀, hqmem⟩ := hc₂ q hqm
      by_cases hqid : q.2 = id
      · rw [hqid] at hc₀
        rcases hsock with ⟨c, hcid, he⟩ | ⟨hnone, he⟩
        · rw [hcid] at hc₀
          injection hc₀ with hceq
          refine ⟨c', ?_, ?_⟩
          · rw [hqid]
            exact lookupA_setA_self _ _ _
          · rw [he]
            exact List.mem_append_left _ (hceq ▸ hqmem)
        · rw [hnone] at hc₀
          exact Option.noConfusion hc₀
      · refine ⟨c₀, ?_, hqmem⟩
        rw [lookupA_setA_ne _ _ _ _ hqid]
        exact hc₀

theorem inv_loginCore (env : Env) (st : ChatState) (s : String) (req : AuthRequest)
    (hInv : Inv st) (hs : lookupA st.sockets s = none)
    (hok : ∀ i u, env.store i = some u → u.id = i) :
    Inv (loginCore env st s req).1 := by
  cases hc : lookupA st.clients (resolveId env req) with
  | some client =>
    have hr : (loginCore env st s req).1 =
        ⟨setA st.clients (resolveId env req)
            { client with socketIds := client.socketIds ++ [s] },
          setA st.sockets s (resolveId env req), st.rateLimit⟩ := by
      simp only [loginCore, hc]
    rw [hr]
    have hcid : client.user.id = resolveId env req :=
      (hInv.1 (resolveId env req, client) (lookupA_mem hc)).1
    exact inv_register st (resolveId env req) s _ hInv hs hcid
      (Or.inl ⟨client, hc, rfl⟩)
  | none =>
    have hr : (loginCore env st s req).1 =
        ⟨setA st.clients (resolveId env req)
            ⟨{ overriddenUser env req (loadedUser env (resolveId env req) s) with
                lastLogin := env.now, bot := req.bot }, [s]⟩,
          setA st.sockets s (resolveId env req), st.rateLimit⟩ := by
      simp only [loginCore, hc]
    rw [hr]
    refine inv_register st (resolveId env req) s _ hInv hs ?_ (Or.inr ⟨hc, rfl⟩)
    show (overriddenUser env req (loadedUser env (resolveId env req) s)).id
      = resolveId env req
    rw [overriddenUser_id]
    exact loadedUser_id env (resolveId env req) s hok

theorem inv_disconnect (st : ChatState) (s : String) (hInv : Inv st) :
    Inv (onClientDisconnect st s).1 := by
  obtain ⟨hc₁, hc₂⟩ := hInv
  cases hl : lookupA st.sockets s with
  | none =>
    have hr : (onClientDisconnect st s).1 = st := by
      simp only [onClientDisconnect, hl]
      rw [delA_eq_of_lookupA_eq_none hl]
    rw [hr]
    exact ⟨hc₁, hc₂⟩
  | some uid =>
    cases hc : lookupA st.clients uid with
    | none =>
      obtain ⟨c, hcs, _⟩ := hc₂ (s, uid) (lookupA_mem hl)
      have hsome : lookupA st.clients uid = some c := hcs
      rw [hc] at hsome
      exact Option.noConfusion hsome
    | some c =>
      have huid : c.user.id = uid := (hc₁ (uid, c) (lookupA_mem hc)).1
      by_cases he : (c.socketIds.filter (fun x => x ≠ s)).isEmpty = true
      case pos =>
        have hr : (onClientDisconnect st s).1 =
            ⟨delA st.clients uid, delA st.sockets s, st.rateLimit⟩ := by
          simp only [onClientDisconnect, hl, hc, he, if_true]
        rw [hr]
        have hfe : c.socketIds.filter (fun x => x ≠ s) = [] := by
          rw [← List.isEmpty_iff]
          exact he
        constructor
        · intro p hp
          obtain ⟨hpm, hpne⟩ := mem_delA hp
          obtain ⟨hpid, hpnn, hpsock⟩ := hc₁ p hpm
          refine ⟨hpid, hpnn, ?_⟩
          intro s' hs'
          have hold := hpsock s' hs'
          have hne : s' ≠ s := by
            intro hcontra
            rw [hcontra, hl] at hold
            injection hold with h
            exact hpne h.symm
          rw [lookupA_delA_ne _ _ _ hne]
          exact hold
        · intro q hq
          obtain ⟨hqm, hqne⟩ := mem_delA hq
          obtain ⟨c₀, hc₀, hqmem⟩ := hc₂ q hqm
          by_cases hquid : q.2 = uid
          · exfalso
            rw [hquid, hc] at hc₀
            injection hc₀ with hceq
            have hqf : q.1 ∈ c.socketIds.filter (fun x => x ≠ s) :=
              List.mem_filter.mpr ⟨hceq ▸ hqmem, by simpa using hqne⟩
            rw [hfe] at hqf
            exact List.not_mem_nil _ hqf
          · refine ⟨c₀, ?_, hqmem⟩
            rw [lookupA_delA_ne _ _ _ hquid]
            exact hc₀
      case neg =>
        have hr : (onClientDisconnect st s).1 =
            ⟨setA st.clients uid
                { c with socketIds := c.socketIds.filter (fun x => x ≠ s) },
              delA st.sockets s, st.rateLimit⟩ := by
          simp only [onClientDisconnect, hl, hc]
          rw [if_neg he]
        rw [hr]
        have hfne : c.socketIds.filter (fun x => x ≠ s) ≠ [] := by
          intro hcontra
          rw [← List.isEmpty_iff] at hcontra
          exact he hcontra
        constructor
        · intro p hp
          rcases mem_setA hp with hpe | ⟨hpm, hpk⟩
          · subst hpe
            refine ⟨huid, hfne, ?_⟩
            intro s' hs'
            obtain ⟨hsm, hsne⟩ := List.mem_filter.mp hs'
            have hold := (hc₁ (uid, c) (lookupA_mem hc)).2.2 s' hsm
            rw [lookupA_delA_ne _ _ _ (by simpa using hsne)]
            exact hold
          · obtain ⟨hpid, hpnn, hpsock⟩ := hc₁ p hpm
            refine ⟨hpid, hpnn, ?_⟩
            intro s' hs'
            have hold := hpsock s' hs'
            have hne : s' ≠ s := by
              intro hcontra
              rw [hcontra, hl] at hold
              injection hold with h
              exact hpk h.symm
            rw [lookupA_delA_ne _ _ _ hne]
            exact hold
        · intro q hq
          obtain ⟨hqm, hqne⟩ := mem_delA hq
          obtain ⟨c₀, hc₀, hqmem⟩ := hc₂ q hqm
          by_cases hquid : q.2 = uid
          · rw [hquid, hc] at hc₀
            injection hc₀ with hceq
            refine ⟨_, by rw [hquid]; exact lookupA_setA_self _ _ _, ?_⟩
            exact List.mem_filter.mpr ⟨hceq ▸ hqmem, by simpa using hqne⟩
          · refine ⟨c₀, ?_, hqmem⟩
            rw [lookupA_setA_ne _ _ _ _ hquid]
            exact hc₀

theorem inv_login (env : Env) (st : ChatState) (s : String) (req : AuthRequest)
    (hInv : Inv st) (hok : ∀ i u, env.store i = some u → u.id = i) :
    Inv (onClientAuthenticated env st s req).1 := by
  unfold onClientAuthenticated
  by_cases hg : (lookupA st.sockets s).isSome = true
  · simp only [hg, if_true]
    exact inv_loginCore env _ s req (inv_disconnect st s hInv) (disc_sockets_self st s) hok
  · simp only [hg, if_false]
    have hs : lookupA st.sockets s = none := by
      cases h : lookupA st.sockets s with
      | none => rfl
      | some v => rw [h] at hg; simp at hg
    exact inv_loginCore env st s req hInv hs hok

theorem inv_step (st : ChatState) (op : Op) (hInv : Inv st) (hok : op.storeOk) :
    Inv (step st op).1 := by
  cases op with
  | login env s req => exact inv_login env st s req hInv hok
  | disconnect s => exact inv_disconnect st s hInv

theorem inv_run (ops : List Op) : ∀ st : ChatState, Inv st →
    (∀ op ∈ ops, op.storeOk) → Inv (run st ops) := by
  induction ops with
  | nil => exact fun st h _ => h
  | cons op t ih =>
    intro st hInv hok
    exact ih _ (inv_step st op hInv (hok op (List.mem_cons_self _ _)))
      (fun o ho => hok o (List.mem_cons_of_mem _ ho))

theorem consistent_of_inv (st : ChatState) (hInv : Inv st) : Consistent st := by
  obtain ⟨hc₁, hc₂⟩ := hInv
  refine ⟨?_, ?_, ?_⟩
  · intro uid
    constructor
    · intro hsome
      cases hcl : lookupA st.clients uid with
      | none => rw [hcl] at hsome; simp at hsome
      | some c =>
        obtain ⟨_, hnn, hsock⟩ := hc₁ (uid, c) (lookupA_mem hcl)
        obtain ⟨s₀, hs₀⟩ := List.exists_mem_of_ne_nil _ hnn
        exact ⟨(s₀, uid), lookupA_mem (hsock s₀ hs₀), rfl⟩
    · rintro ⟨q, hq, hq2⟩
      obtain ⟨c, hcl, _⟩ := hc₂ q hq
      rw [hq2] at hcl
      rw [hcl]
      rfl
  · intro q hq
    obtain ⟨c, hcl, _⟩ := hc₂ q hq
    rw [hcl]
    rfl
  · intro p hp
    obtain ⟨_, hnn, hsock⟩ := hc₁ p hp
    obtain ⟨s₀, hs₀⟩ := List.exists_mem_of_ne_nil _ hnn
    exact ⟨(s₀, p.1), lookupA_mem (hsock s₀ hs₀), rfl⟩

/-- C1: starting from the empty registry, after any sequence of login and
disconnect events (with a store that answers find-by-id queries with records
carrying the queried id), the registry is consistent: an identity is present
in `clients` iff at least one entry of the reverse map points to it, every
reverse-map entry resolves in `clients`, and every registered identity has at
least one reverse-map entry. -/
theorem c1_registry_consistency (ops : List Op) (h : ∀ op ∈ ops, op.storeOk) :
    Consistent (run initialState ops) :=
  consistent_of_inv _ (inv_run ops initialState inv_initial h)

/-- C1 witness: a login followed by a disconnect of the same socket. -/
theorem c1_registry_consistency_witness :
    Consistent (run initialState
      [Op.login demoEnv "s1" ⟨none, none, false⟩, Op.disconnect "s1"]) :=
  c1_registry_consistency _ (by
    intro op hop
    rcases List.mem_cons.mp hop with h | hop
    · subst h
      intro i u hu
      simp [demoEnv] at hu
    · rcases List.mem_cons.mp hop with h | hop
      · subst h
        trivial
      · exact absurd hop (List.not_mem_nil _))

/-- C3: with the registry invariant, unregistering a connection unknown to the
reverse map is a strict no-op (same state, no events, no error); unregistering
a known connection removes it from the reverse map and from its identity's
connection set, and exactly when that set becomes empty the identity is
removed from the primary registry and exactly one `sys-leave` is broadcast;
otherwise the identity stays registered with the remaining connections and
nothing is broadcast. -/
theorem c3_unregister_contract (st : ChatState) (s : String) (hInv : Inv st) :
    (lookupA st.sockets s = none → onClientDisconnect st s = (st, [])) ∧
    (∀ uid, lookupA st.sockets s = some uid →
      ∃ c, lookupA st.clients uid = some c ∧
        lookupA (onClientDisconnect st s).1.sockets s = none ∧
        (if (c.socketIds.filter (fun x => x ≠ s)).isEmpty then
          lookupA (onClientDisconnect st s).1.clients uid = none ∧
            (onClientDisconnect st s).2 = [Event.leave c.user]
        else
          lookupA (onClientDisconnect st s).1.clients uid
              = some { c with socketIds := c.socketIds.filter (fun x => x ≠ s) } ∧
            (onClientDisconnect st s).2 = [])) := by
  constructor
  · intro h
    simp only [onClientDisconnect, h]
    rw [delA_eq_of_lookupA_eq_none h]
  · intro uid hl
    obtain ⟨c, hcs, _⟩ := hInv.2 (s, uid) (lookupA_mem hl)
    have hcl : lookupA st.clients uid = some c := hcs
    refine ⟨c, hcl, disc_sockets_self st s, ?_⟩
    by_cases he : (c.socketIds.filter (fun x => x ≠ s)).isEmpty = true
    · simp only [he, if_true]
      simp only [onClientDisconnect, hl, hcl, he, if_true]
      refine ⟨lookupA_delA_self _ _, ?_⟩
      trivial
    · simp only [he, if_false]
      simp only [onClientDisconnect, hl, hcl]
      rw [if_neg he]
      refine ⟨lookupA_setA_self _ _ _, ?_⟩
      trivial

theorem c9st_inv : Inv c9st := by
  constructor
  · intro p hp
    simp only [c9st, List.mem_singleton] at hp
    subst hp
    exact ⟨rfl, by simp [c9client], by intro s' hs'; simp [c9client] at hs'; subst hs'; rfl⟩
  · intro q hq
    simp only [c9st, List.mem_singleton] at hq
    subst hq
    exact ⟨c9client, rfl, by simp [c9client]⟩

/-- C3 witness: disconnecting `sA`, the only connection of `u1`, removes the
identity and broadcasts exactly one leave. -/
theorem c3_unregister_contract_witness :
    ∃ c, lookupA c9st.clients "u1" = some c ∧
      lookupA (onClientDisconnect c9st "sA").1.sockets "sA" = none ∧
      (if (c.socketIds.filter (fun x => x ≠ "sA")).isEmpty then
        lookupA (onClientDisconnect c9st "sA").1.clients "u1" = none ∧
          (onClientDisconnect c9st "sA").2 = [Event.leave c.user]
      else
        lookupA (onClientDisconnect c9st "sA").1.clients "u1"
            = some { c with socketIds := c.socketIds.filter (fun x => x ≠ "sA") } ∧
          (onClientDisconnect c9st "sA").2 = []) :=
  (c3_unregister_contract c9st "sA" c9st_inv).2 "u1" rfl

end NodeChat
